/-
Verification of the geospatial-temporal correlation and trip segmentation
logic of the ford-sync log analysis scripts.

Shallow embedding conventions:
* Python floats for timestamps (seconds) and coordinates are modelled as ℚ;
  none of the verified claims depends on floating-point rounding.
* Regex extraction of fields from raw log lines is an excluded collaborator
  (black-box producer of typed records), so functions receive the already
  extracted numeric fields; a log is a list of `Option`-typed parsed lines.
* The haversine distance (trigonometric, real-valued) is passed to the
  clusterer as an explicit distance-function parameter `d`; the structural
  claims proved about clustering hold for every distance function, hence in
  particular for the haversine instantiation used by the scripts.
-/
import Mathlib

namespace FordSync

/-! ## Coordinate decoding (parse_gps_tracks.py, match_wifi_to_GPS_location.py) -/

/-- `decode_mm_coordinate` from parse_gps_tracks.py (lines 29–39):
adaptive precision, divisor 100000 for `|raw| > 1000000`, else 10000. -/
def decode_mm_coordinate (mm_value : ℚ) : ℚ :=
  if 1000000 < |mm_value| then mm_value / 100000 else mm_value / 10000

/-- `convert_mm_coordinates` from match_wifi_to_GPS_location.py (lines 58–76):
divides both raw values by 100000 unconditionally and returns
`(latitude, longitude)`. -/
def convert_mm_coordinates (mm_lon mm_lat : ℚ) : ℚ × ℚ :=
  (mm_lat / 100000, mm_lon / 100000)

/-- A decoded GPS point as built by `parse_gps_line` in parse_gps_tracks.py. -/
structure ParsedGps where
  timestamp : ℚ
  latitude : ℚ
  longitude : ℚ
  altitude_ft : ℚ
  altitude_m : ℚ
  heading : ℚ
  satellites : ℕ
deriving DecidableEq

/-- The decode-and-validate core of `parse_gps_line` from parse_gps_tracks.py
(lines 59–93), after the black-box regex extraction has produced the raw
numeric fields.  Returns `none` (a rejection, never an exception) when the
raw pair is exactly `(0,0)`, when the decoded point is outside
`[-90,90]×[-180,180]`, or when the decoded point is within `0.001` of the
origin in both coordinates. -/
def parse_gps_line (timestamp mm_lon_raw mm_lat_raw altitude_m heading : ℚ)
    (satellites : ℕ) : Option ParsedGps :=
  if mm_lon_raw = 0 ∧ mm_lat_raw = 0 then none
  else
    let longitude := decode_mm_coordinate mm_lon_raw
    let latitude := decode_mm_coordinate mm_lat_raw
    if ¬(-90 ≤ latitude ∧ latitude ≤ 90 ∧ -180 ≤ longitude ∧ longitude ≤ 180) then
      none
    else if |longitude| < 1/1000 ∧ |latitude| < 1/1000 then
      none
    else
      some { timestamp := timestamp
             latitude := latitude
             longitude := longitude
             altitude_ft := altitude_m * (328084/100000)
             altitude_m := altitude_m
             heading := heading
             satellites := satellites }

/-! ## Trip metrics (parse_gps_tracks.py, create_kml_file) -/

/-- The average-speed computation of `create_kml_file` from
parse_gps_tracks.py (lines 148–153): `duration_min` is the trip duration in
seconds divided by 60, `distance_km = distance_m / 1000`, and the average
speed is `distance_km / (duration_min / 60)` guarded by `duration_min > 0`,
else `0`.  The trip distance (haversine sum) enters as the already computed
`distance_m`. -/
def create_kml_avg_speed (distance_m duration_s : ℚ) : ℚ :=
  let duration_min := duration_s / 60
  let distance_km := distance_m / 1000
  if 0 < duration_min then distance_km / (duration_min / 60) else 0

/-! ## Temporal correlator (match_wifi_to_GPS_location.py, find_gps_in_window) -/

/-- A log line that matched the `MM Output` GPS regex of
match_wifi_to_GPS_location.py: the extracted timestamp (seconds) and the raw
numeric fields.  A full log is a `List (Option GpsLine)`; `none` stands for a
line that does not match the GPS pattern. -/
structure GpsLine where
  time : ℚ
  mm_lon : ℚ
  mm_lat : ℚ
  alt : ℚ
  hd : ℚ
deriving DecidableEq

/-- The match returned by `find_gps_in_window`: the source returns the
candidate's fields together with `time_diff`; the line index `idx` of the
chosen candidate is additionally retained here so that the tie-breaking
behaviour can be specified (the source discards it). -/
structure GpsWindowResult where
  idx : ℕ
  line : GpsLine
  time_diff : ℚ
deriving DecidableEq

/-- The parsed GPS line at index `i` of the log (`none` out of bounds or for a
non-GPS line). -/
def lineAt (log : List (Option GpsLine)) (i : ℕ) : Option GpsLine :=
  (log.getD i none)

/-- One iteration of the scan loop of `find_gps_in_window` (lines 158–175):
at index `idx`, if the line is a GPS line whose absolute time delta to the
target is `≤ window_seconds` and strictly below the running minimum, it
becomes the new closest match. -/
def windowStep (log : List (Option GpsLine)) (target_time window_seconds : ℚ)
    (st : Option GpsWindowResult × ℚ) (idx : ℕ) : Option GpsWindowResult × ℚ :=
  match lineAt log idx with
  | none => st
  | some g =>
    if |g.time - target_time| ≤ window_seconds ∧ |g.time - target_time| < st.2 then
      (some ⟨idx, g, |g.time - target_time|⟩, |g.time - target_time|)
    else st

/-- `find_gps_in_window` from match_wifi_to_GPS_location.py (lines 133–177):
scans the line indices `range(max(0, start_line - 50), min(len(log),
start_line + 50))` (note: upper bound exclusive, as in Python `range`),
keeping the candidate with the smallest absolute time delta that is
`≤ window_seconds`; the running minimum starts at `window_seconds + 1` and is
only beaten strictly, so the earliest qualifying index wins ties.  Returns
`none` when no scanned candidate is within the time window. -/
def find_gps_in_window (log : List (Option GpsLine)) (target_time : ℚ)
    (start_line : ℕ) (window_seconds : ℚ) : Option GpsWindowResult :=
  let lo := start_line - 50
  let hi := min log.length (start_line + 50)
  ((List.range' lo (hi - lo)).foldl
    (windowStep log target_time window_seconds) (none, window_seconds + 1)).1

/-- Loop invariant of the scan of `find_gps_in_window` after processing the
line indices in `L`: either no scanned line qualified (and the running
minimum is still `w + 1`), or the state holds the qualifying candidate of
minimal time delta, at the earliest index among the minimisers. -/
def WindowInv (log : List (Option GpsLine)) (target w : ℚ) (L : List ℕ) :
    Option GpsWindowResult × ℚ → Prop
  | (none, m) => m = w + 1 ∧
      ∀ i ∈ L, ∀ g, lineAt log i = some g → w < |g.time - target|
  | (some r, m) => m = r.time_diff ∧ r.time_diff = |r.line.time - target| ∧
      r.time_diff ≤ w ∧ r.idx ∈ L ∧ lineAt log r.idx = some r.line ∧
      ∀ i ∈ L, ∀ g, lineAt log i = some g → |g.time - target| ≤ w →
        r.time_diff ≤ |g.time - target| ∧
        (|g.time - target| = r.time_diff → r.idx ≤ i)

theorem windowStep_inv {log : List (Option GpsLine)} {target w : ℚ} {L : List ℕ}
    {st : Option GpsWindowResult × ℚ} {x : ℕ}
    (hL : ∀ p ∈ L, p ≤ x) (h : WindowInv log target w L st) :
    WindowInv log target w (L ++ [x]) (windowStep log target w st x) := by
  obtain ⟨res, m⟩ := st
  unfold windowStep
  cases hx : lineAt log x with
  | none =>
    cases res with
    | none =>
      obtain ⟨hm, hnone⟩ := h
      refine ⟨hm, ?_⟩
      intro i hi g hg
      rcases List.mem_append.mp hi with hi | hi
      · exact hnone i hi g hg
      · rw [List.mem_singleton] at hi; subst hi; rw [hx] at hg; cases hg
    | some r =>
      obtain ⟨hm, htd, hw, hidx, hline, hmin⟩ := h
      refine ⟨hm, htd, hw, List.mem_append.mpr (Or.inl hidx), hline, ?_⟩
      intro i hi g hg hgw
      rcases List.mem_append.mp hi with hi | hi
      · exact hmin i hi g hg hgw
      · rw [List.mem_singleton] at hi; subst hi; rw [hx] at hg; cases hg
  | some g =>
    show WindowInv log target w (L ++ [x])
      (if |g.time - target| ≤ w ∧ |g.time - target| < m then
        (some ⟨x, g, |g.time - target|⟩, |g.time - target|) else (res, m))
    by_cases hcond : |g.time - target| ≤ w ∧ |g.time - target| < m
    · rw [if_pos hcond]
      refine ⟨rfl, rfl, hcond.1,
        List.mem_append.mpr (Or.inr (List.mem_singleton_self x)), hx, ?_⟩
      intro i hi g' hg' hg'w
      rcases List.mem_append.mp hi with hi | hi
      · cases res with
        | none =>
          obtain ⟨hm, hnone⟩ := h
          exact absurd hg'w (not_le.mpr (hnone i hi g' hg'))
        | some r =>
          obtain ⟨hm, htd, hw, hidx, hline, hmin⟩ := h
          have h1 := (hmin i hi g' hg' hg'w).1
          have h2 : |g.time - target| < |g'.time - target| :=
            lt_of_lt_of_le (hm ▸ hcond.2) h1
          exact ⟨le_of_lt h2, fun heq => absurd (heq ▸ h2) (lt_irrefl _)⟩
      · rw [List.mem_singleton] at hi; subst hi
        rw [hx] at hg'; injection hg' with hg'; subst hg'
        exact ⟨le_refl _, fun _ => le_refl _⟩
    · rw [if_neg hcond]
      cases res with
      | none =>
        obtain ⟨hm, hnone⟩ := h
        refine ⟨hm, ?_⟩
        intro i hi g' hg'
        rcases List.mem_append.mp hi with hi | hi
        · exact hnone i hi g' hg'
        · rw [List.mem_singleton] at hi; subst hi
          rw [hx] at hg'; injection hg' with hg'; subst hg'
          by_contra hnlt
          push_neg at hnlt
          exact hcond ⟨hnlt, hm ▸ lt_of_le_of_lt hnlt (lt_add_one w)⟩
      | some r =>
        obtain ⟨hm, htd, hw, hidx, hline, hmin⟩ := h
        refine ⟨hm, htd, hw, List.mem_append.mpr (Or.inl hidx), hline, ?_⟩
        intro i hi g' hg' hg'w
        rcases List.mem_append.mp hi with hi | hi
        · exact hmin i hi g' hg' hg'w
        · rw [List.mem_singleton] at hi; subst hi
          rw [hx] at hg'; injection hg' with hg'; subst hg'
          have hmle : m ≤ |g.time - target| := by
            by_contra hlt
            push_neg at hlt
            exact hcond ⟨hg'w, hlt⟩
          exact ⟨hm ▸ hmle, fun _ => hL r.idx hidx⟩

theorem foldl_windowStep_inv (log : List (Option GpsLine)) (target w : ℚ)
    (lo : ℕ) (n : ℕ) :
    WindowInv log target w (List.range' lo n)
      ((List.range' lo n).foldl (windowStep log target w) (none, w + 1)) := by
  induction n with
  | zero =>
    refine ⟨rfl, ?_⟩
    intro i hi
    simp [List.range'] at hi
  | succ n ih =>
    rw [List.range'_1_concat, List.foldl_append, List.foldl_cons, List.foldl_nil]
    refine windowStep_inv ?_ ih
    intro p hp
    rw [List.mem_range'_1] at hp
    omega

/-- Full input–output characterisation of `find_gps_in_window`: the scanned
index interval is `[start - 50, min log.length (start + 50))` (lower bound
clamped by ℕ subtraction, upper bound exclusive); `none` is returned exactly
when no scanned line is a GPS line within the time window, and a returned
match is a qualifying candidate of minimal time delta, at the earliest index
among ties. -/
theorem find_gps_in_window_spec (log : List (Option GpsLine)) (target : ℚ)
    (start : ℕ) (w : ℚ) :
    (find_gps_in_window log target start w = none ↔
      ∀ i, start - 50 ≤ i → i < min log.length (start + 50) →
        ∀ g, lineAt log i = some g → w < |g.time - target|) ∧
    (∀ r, find_gps_in_window log target start w = some r →
      start - 50 ≤ r.idx ∧ r.idx < min log.length (start + 50) ∧
      lineAt log r.idx = some r.line ∧ r.time_diff = |r.line.time - target| ∧
      r.time_diff ≤ w ∧
      ∀ i, start - 50 ≤ i → i < min log.length (start + 50) →
        ∀ g, lineAt log i = some g → |g.time - target| ≤ w →
          r.time_diff ≤ |g.time - target| ∧
          (|g.time - target| = r.time_diff → r.idx ≤ i)) := by
  have inv := foldl_windowStep_inv log target w (start - 50)
    (min log.length (start + 50) - (start - 50))
  have hmem : ∀ i,
      i ∈ List.range' (start - 50) (min log.length (start + 50) - (start - 50)) ↔
      (start - 50 ≤ i ∧ i < min log.length (start + 50)) := by
    intro i
    rw [List.mem_range'_1]
    omega
  rcases hst : (List.range' (start - 50)
      (min log.length (start + 50) - (start - 50))).foldl
      (windowStep log target w) (none, w + 1) with ⟨res, m⟩
  rw [hst] at inv
  have hval : find_gps_in_window log target start w = res := by
    simp only [find_gps_in_window]
    rw [hst]
  cases res with
  | none =>
    obtain ⟨hm, hnone⟩ := inv
    constructor
    · constructor
      · intro _ i h1 h2 g hg
        exact hnone i ((hmem i).mpr ⟨h1, h2⟩) g hg
      · intro _; exact hval
    · intro r hr
      rw [hval] at hr
      cases hr
  | some r0 =>
    obtain ⟨hm, htd, hw, hidx, hline, hmin⟩ := inv
    constructor
    · constructor
      · intro h0
        rw [hval] at h0
        cases h0
      · intro hall
        exfalso
        have hq := hall r0.idx ((hmem _).mp hidx).1 ((hmem _).mp hidx).2 r0.line hline
        rw [← htd] at hq
        exact absurd hw (not_le.mpr hq)
    · intro r hr
      rw [hval] at hr
      injection hr with hr
      subst hr
      refine ⟨((hmem _).mp hidx).1, ((hmem _).mp hidx).2, hline, htd, hw, ?_⟩
      intro i h1 h2 g hg hgw
      exact hmin i ((hmem i).mpr ⟨h1, h2⟩) g hg hgw

/-! ## Trip segmentation (parse_gps_tracks.py, group_into_trips) -/

/-- A decoded GPS point as consumed by `group_into_trips`; timestamps are in
seconds. -/
structure GpsPoint where
  timestamp : ℚ
  latitude : ℚ
  longitude : ℚ
  altitude_m : ℚ
  heading : ℚ
  satellites : ℕ
deriving DecidableEq

/-- The in-place stable sort `gps_points.sort(key=lambda x: x['timestamp'])`
of group_into_trips (line 123).  Python's Timsort is a stable sort, as is
`List.mergeSort`, and any two stable sorts by the same key agree, so
`mergeSort` by timestamp is the faithful embedding. -/
def sortByTimestamp (pts : List GpsPoint) : List GpsPoint :=
  pts.mergeSort (fun a b => decide (a.timestamp ≤ b.timestamp))

/-- One iteration of the walk of `group_into_trips` (lines 128–135), on state
`(trips, current_trip, current_trip[-1])`: a new trip starts exactly when the
gap in minutes to the previous point strictly exceeds `gap_minutes`. -/
def tripsStep (gap_minutes : ℚ)
    (st : List (List GpsPoint) × List GpsPoint × GpsPoint) (p : GpsPoint) :
    List (List GpsPoint) × List GpsPoint × GpsPoint :=
  if gap_minutes < (p.timestamp - st.2.2.timestamp) / 60 then
    (st.1 ++ [st.2.1], [p], p)
  else
    (st.1, st.2.1 ++ [p], p)

/-- `group_into_trips` from parse_gps_tracks.py (lines 118–140): sort by
timestamp, then walk the sorted sequence splitting on gaps strictly greater
than `gap_minutes` minutes; the final current trip is appended. -/
def group_into_trips (pts : List GpsPoint) (gap_minutes : ℚ) :
    List (List GpsPoint) :=
  match sortByTimestamp pts with
  | [] => []
  | p :: rest =>
    let st := rest.foldl (tripsStep gap_minutes) ([], [p], p)
    st.1 ++ [st.2.1]

/-- Consecutive points of a trip are at most `gap` minutes apart. -/
def WithinGap (gap : ℚ) (t : List GpsPoint) : Prop :=
  t.Chain' (fun a b => (b.timestamp - a.timestamp) / 60 ≤ gap)

/-- The inactivity gap between the last point of `t` and the first point of
`u` strictly exceeds `gap` minutes. -/
def TripBoundary (gap : ℚ) (t u : List GpsPoint) : Prop :=
  ∀ a b, t.getLast? = some a → u.head? = some b →
    gap < (b.timestamp - a.timestamp) / 60

/-- The points accumulated so far in the walk state. -/
def tripsJoin (st : List (List GpsPoint) × List GpsPoint × GpsPoint) :
    List GpsPoint :=
  st.1.flatten ++ st.2.1

/-- Invariant of the walk of `group_into_trips`: the current trip is
non-empty, ends at the tracked last point, and all closed trips are
non-empty, within-gap, and separated by strict gaps. -/
def TripsInv (gap : ℚ)
    (st : List (List GpsPoint) × List GpsPoint × GpsPoint) : Prop :=
  st.2.1 ≠ [] ∧ st.2.1.getLast? = some st.2.2 ∧ WithinGap gap st.2.1 ∧
  (∀ t ∈ st.1, t ≠ [] ∧ WithinGap gap t) ∧
  (st.1 ++ [st.2.1]).Chain' (TripBoundary gap)

theorem tripsStep_inv {gap : ℚ}
    {st : List (List GpsPoint) × List GpsPoint × GpsPoint} {p : GpsPoint}
    (h : TripsInv gap st) :
    TripsInv gap (tripsStep gap st p) ∧
    tripsJoin (tripsStep gap st p) = tripsJoin st ++ [p] := by
  obtain ⟨trips, cur, last⟩ := st
  obtain ⟨hne, hlast, hwithin, hclosed, hchain⟩ := h
  unfold tripsStep tripsJoin
  by_cases hgap : gap < (p.timestamp - last.timestamp) / 60
  · rw [if_pos hgap]
    refine ⟨⟨by simp, by simp, List.chain'_singleton p, ?_, ?_⟩, by simp⟩
    · intro t ht
      rcases List.mem_append.mp ht with ht | ht
      · exact hclosed t ht
      · rw [List.mem_singleton] at ht
        subst ht
        exact ⟨hne, hwithin⟩
    · rw [List.chain'_append]
      refine ⟨hchain, List.chain'_singleton _, ?_⟩
      intro x hx y hy
      rw [List.getLast?_concat] at hx
      simp at hx hy
      subst hx; subst hy
      intro a b ha hb
      rw [hlast] at ha
      injection ha with ha
      subst ha
      simp at hb
      subst hb
      exact hgap
  · rw [if_neg hgap]
    refine ⟨⟨by simp, by rw [List.getLast?_concat], ?_, hclosed, ?_⟩, by simp⟩
    · rw [WithinGap, List.chain'_append]
      refine ⟨hwithin, List.chain'_singleton p, ?_⟩
      intro x hx y hy
      rw [hlast] at hx
      simp at hx hy
      subst hx; subst hy
      exact le_of_not_lt hgap
    · rw [List.chain'_append] at hchain ⊢
      refine ⟨hchain.1, List.chain'_singleton _, ?_⟩
      intro x hx y hy
      simp at hy
      subst hy
      intro a b ha hb
      have hb' : cur.head? = some b := by
        cases hcur : cur with
        | nil => exact ((hne hcur).elim)
        | cons c cs =>
          rw [hcur] at hb
          simpa using hb
      exact hchain.2.2 x hx cur (by simp) a b ha hb'

theorem foldl_tripsStep_inv (gap : ℚ) (rest : List GpsPoint) :
    ∀ st, TripsInv gap st →
      TripsInv gap (rest.foldl (tripsStep gap) st) ∧
      tripsJoin (rest.foldl (tripsStep gap) st) = tripsJoin st ++ rest := by
  induction rest with
  | nil => exact fun st h => ⟨h, by simp⟩
  | cons p rest ih =>
    intro st h
    rw [List.foldl_cons]
    obtain ⟨h1, h2⟩ := tripsStep_inv (p := p) h
    obtain ⟨h3, h4⟩ := ih (tripsStep gap st p) h1
    exact ⟨h3, by rw [h4, h2, List.append_assoc]; rfl⟩

/-- Structural characterisation of `group_into_trips`: the produced trips
concatenate back to the timestamp-sorted input, every trip is non-empty with
consecutive gaps at most `gap` minutes, and consecutive trips are separated
by a gap strictly greater than `gap` minutes. -/
theorem group_into_trips_spec (pts : List GpsPoint) (gap : ℚ) :
    (group_into_trips pts gap).flatten = sortByTimestamp pts ∧
    (∀ t ∈ group_into_trips pts gap, t ≠ [] ∧ WithinGap gap t) ∧
    (group_into_trips pts gap).Chain' (TripBoundary gap) := by
  rcases hs : sortByTimestamp pts with _ | ⟨p, rest⟩
  · simp [group_into_trips, hs]
  · have hinit : TripsInv gap ([], [p], p) :=
      ⟨by simp, by simp, List.chain'_singleton p, by simp, by simp⟩
    obtain ⟨⟨hne, hlast, hwithin, hclosed, hchain⟩, hjoin⟩ :=
      foldl_tripsStep_inv gap rest ([], [p], p) hinit
    have hg : group_into_trips pts gap =
        (rest.foldl (tripsStep gap) ([], [p], p)).1 ++
        [(rest.foldl (tripsStep gap) ([], [p], p)).2.1] := by
      simp only [group_into_trips, hs]
    rw [hg]
    refine ⟨?_, ?_, hchain⟩
    · have : tripsJoin (rest.foldl (tripsStep gap) ([], [p], p)) = p :: rest := by
        rw [hjoin]; simp [tripsJoin]
      simpa [tripsJoin] using this
    · intro t ht
      rcases List.mem_append.mp ht with ht | ht
      · exact hclosed t ht
      · rw [List.mem_singleton] at ht
        subst ht
        exact ⟨hne, hwithin⟩

theorem sortByTimestamp_perm (pts : List GpsPoint) :
    List.Perm (sortByTimestamp pts) pts :=
  List.mergeSort_perm pts _

theorem sortByTimestamp_sorted (pts : List GpsPoint) :
    (sortByTimestamp pts).Pairwise (fun a b => a.timestamp ≤ b.timestamp) := by
  have h := @List.sorted_mergeSort GpsPoint
    (fun a b : GpsPoint => decide (a.timestamp ≤ b.timestamp))
    (fun a b c hab hbc => by
      simp only [decide_eq_true_eq] at *
      exact le_trans hab hbc)
    (fun a b => by
      simp only [Bool.or_eq_true, decide_eq_true_eq]
      exact le_total a.timestamp b.timestamp)
    pts
  exact h.imp (by simp)

/-- Stability of the timestamp sort: two points appearing in this input order
whose timestamps are non-decreasing keep their relative order. -/
theorem sortByTimestamp_stable (pts : List GpsPoint) {a b : GpsPoint}
    (h : List.Sublist [a, b] pts) (hab : a.timestamp ≤ b.timestamp) :
    List.Sublist [a, b] (sortByTimestamp pts) :=
  List.sublist_mergeSort
    (fun a b c hab hbc => by
      simp only [decide_eq_true_eq] at *
      exact le_trans hab hbc)
    (fun a b => by
      simp only [Bool.or_eq_true, decide_eq_true_eq]
      exact le_total a.timestamp b.timestamp)
    (by simp [hab]) h

/-! ## Spatial clustering (parse_unifiedsearch_log.py, cluster_locations) -/

/-- A `(timestamp, lat, lon)` entry as consumed by `cluster_locations`. -/
structure LocEntry where
  ts : ℚ
  lat : ℚ
  lon : ℚ
deriving DecidableEq

/-- A cluster as built by `cluster_locations`. -/
structure Cluster where
  centroid : ℚ × ℚ
  points : List (ℚ × ℚ)
  timestamps : List ℚ
  count : ℕ
deriving DecidableEq

/-- `calculate_centroid` from parse_unifiedsearch_log.py (lines 35–46):
arithmetic mean of the coordinates; `none` models Python's `(None, None)`
answer on the empty list. -/
def calculate_centroid (points : List (ℚ × ℚ)) : Option (ℚ × ℚ) :=
  match points with
  | [] => none
  | _ :: _ => some ((points.map Prod.fst).sum / points.length,
                    (points.map Prod.snd).sum / points.length)

/-- The coordinates of an entry, in the `(lat, lon)` order used by the
clusterer. -/
def coordsOf (e : LocEntry) : ℚ × ℚ := (e.lat, e.lon)

/-- The greedy outer loop of `cluster_locations` (lines 57–85), with the
haversine distance abstracted as the parameter `d`: the first unclaimed
entry seeds a cluster, every later unclaimed entry whose distance **to that
seed** is `≤ radius` joins the cluster and is claimed, the cluster's
centroid is computed once at close time, then the loop continues over the
still-unclaimed entries.  `fuel` bounds the recursion; callers pass the
input length, which suffices because the unclaimed list strictly shrinks. -/
def clusterGo (d : ℚ × ℚ → ℚ × ℚ → ℚ) (radius : ℚ) :
    ℕ → List LocEntry → List Cluster
  | _, [] => []
  | 0, _ :: _ => []
  | fuel + 1, p :: rest =>
    let joined := rest.filter (fun q => decide (d (coordsOf p) (coordsOf q) ≤ radius))
    let remaining := rest.filter (fun q => !decide (d (coordsOf p) (coordsOf q) ≤ radius))
    let pts := coordsOf p :: joined.map coordsOf
    { centroid := (calculate_centroid pts).getD (0, 0)
      points := pts
      timestamps := p.ts :: joined.map (fun q => q.ts)
      count := pts.length } :: clusterGo d radius fuel remaining

/-- `cluster_locations` from parse_unifiedsearch_log.py (lines 49–89):
greedy seed-based clustering followed by the stable in-place sort
`clusters.sort(key=lambda x: x['count'], reverse=True)`, i.e. a stable sort
by descending member count (`List.mergeSort` is stable, like Python's
Timsort). -/
def cluster_locations (d : ℚ × ℚ → ℚ × ℚ → ℚ) (radius : ℚ)
    (gps_data : List LocEntry) : List Cluster :=
  (clusterGo d radius gps_data.length gps_data).mergeSort
    (fun a b => decide (b.count ≤ a.count))

theorem clusterGo_nil (d : ℚ × ℚ → ℚ × ℚ → ℚ) (radius : ℚ) (fuel : ℕ) :
    clusterGo d radius fuel [] = [] := by
  cases fuel <;> rfl

/-- Every cluster formed by the greedy loop is seeded by its first member,
has `count` equal to its member count, matching timestamp list length, and
all its non-seed members are within `radius` of the seed. -/
theorem clusterGo_members (d : ℚ × ℚ → ℚ × ℚ → ℚ) (radius : ℚ) :
    ∀ (fuel : ℕ) (data : List LocEntry), data.length ≤ fuel →
      ∀ c ∈ clusterGo d radius fuel data,
        c.points ≠ [] ∧ c.count = c.points.length ∧
        c.timestamps.length = c.points.length ∧
        (∀ seed, c.points.head? = some seed →
          ∀ q ∈ c.points.tail, d seed q ≤ radius) := by
  intro fuel
  induction fuel with
  | zero =>
    intro data hlen c hc
    rw [List.length_eq_zero.mp (Nat.le_zero.mp hlen)] at hc
    simp [clusterGo_nil] at hc
  | succ fuel ih =>
    intro data hlen c hc
    cases data with
    | nil => simp [clusterGo_nil] at hc
    | cons p rest =>
      rw [clusterGo] at hc
      rcases List.mem_cons.mp hc with hc | hc
      · subst hc
        refine ⟨by simp, by simp, by simp, ?_⟩
        intro seed hseed q hq
        simp only [List.head?_cons, Option.some.injEq] at hseed
        subst hseed
        simp only [List.tail_cons, List.mem_map] at hq
        obtain ⟨e, he, rfl⟩ := hq
        have := List.of_mem_filter he
        simpa using this
      · refine ih _ ?_ c hc
        have : (rest.filter
            (fun q => !decide (d (coordsOf p) (coordsOf q) ≤ radius))).length ≤
            rest.length := List.length_filter_le _ _
        simp only [List.length_cons] at hlen
        omega

/-- The member lists of the formed clusters are a permutation of the input
coordinates: greedy clustering claims every input point exactly once. -/
theorem clusterGo_partition (d : ℚ × ℚ → ℚ × ℚ → ℚ) (radius : ℚ) :
    ∀ (fuel : ℕ) (data : List LocEntry), data.length ≤ fuel →
      List.Perm ((clusterGo d radius fuel data).map (fun c => c.points)).flatten
        (data.map coordsOf) := by
  intro fuel
  induction fuel with
  | zero =>
    intro data hlen
    rw [List.length_eq_zero.mp (Nat.le_zero.mp hlen)]
    simp [clusterGo_nil]
  | succ fuel ih =>
    intro data hlen
    cases data with
    | nil => simp [clusterGo_nil]
    | cons p rest =>
      simp only [List.length_cons] at hlen
      have hrem : (rest.filter
          (fun q => !decide (d (coordsOf p) (coordsOf q) ≤ radius))).length ≤
          fuel := by
        have := List.length_filter_le
          (fun q => !decide (d (coordsOf p) (coordsOf q) ≤ radius)) rest
        omega
      rw [clusterGo]
      simp only [List.map_cons, List.flatten_cons, List.cons_append]
      refine List.Perm.cons _ ?_
      have h1 := ih _ hrem
      have h2 : List.Perm
          ((rest.filter (fun q => decide (d (coordsOf p) (coordsOf q) ≤ radius))) ++
           (rest.filter (fun q => !decide (d (coordsOf p) (coordsOf q) ≤ radius))))
          rest := List.filter_append_perm _ rest
      refine List.Perm.trans (List.Perm.append_left _ h1) ?_
      rw [← List.map_append]
      exact h2.map coordsOf


theorem countLE_trans (a b c : Cluster) :
    (fun a b : Cluster => decide (b.count ≤ a.count)) a b →
    (fun a b : Cluster => decide (b.count ≤ a.count)) b c →
    (fun a b : Cluster => decide (b.count ≤ a.count)) a c := by
  simp only [decide_eq_true_eq]
  exact fun h1 h2 => le_trans h2 h1

theorem countLE_total (a b : Cluster) :
    ((fun a b : Cluster => decide (b.count ≤ a.count)) a b ||
     (fun a b : Cluster => decide (b.count ≤ a.count)) b a) = true := by
  simp only [Bool.or_eq_true, decide_eq_true_eq]
  exact Or.symm (le_total a.count b.count)

theorem cluster_locations_perm (d : ℚ × ℚ → ℚ × ℚ → ℚ) (radius : ℚ)
    (data : List LocEntry) :
    List.Perm (cluster_locations d radius data)
      (clusterGo d radius data.length data) :=
  List.mergeSort_perm _ _

theorem cluster_locations_sorted (d : ℚ × ℚ → ℚ × ℚ → ℚ) (radius : ℚ)
    (data : List LocEntry) :
    (cluster_locations d radius data).Pairwise
      (fun a b => b.count ≤ a.count) := by
  have h := List.sorted_mergeSort countLE_trans countLE_total
    (clusterGo d radius data.length data)
  exact h.imp (by simp)

theorem cluster_locations_stable (d : ℚ × ℚ → ℚ × ℚ → ℚ) (radius : ℚ)
    (data : List LocEntry) {a b : Cluster}
    (h : List.Sublist [a, b] (clusterGo d radius data.length data))
    (hab : b.count ≤ a.count) :
    List.Sublist [a, b] (cluster_locations d radius data) :=
  List.sublist_mergeSort countLE_trans countLE_total (by simp [hab]) h

/-! ## Claims -/

/-- C2 counterexample: at the raw value `500000` (magnitude ≤ 1,000,000) the
claim prescribes the divisor 10000, i.e. the value 50, but
`convert_mm_coordinates` (one of the two decoders the claim covers) always
divides by 100000 and yields 5 — its divisor is fixed, not selected from the
magnitude. -/
theorem claim2_counterexample :
    |(500000 : ℚ)| ≤ 1000000 ∧
    convert_mm_coordinates 500000 500000 = (5, 5) ∧
    (500000 : ℚ) / 10000 = 50 ∧ (5 : ℚ) ≠ 50 := by
  refine ⟨by norm_num, ?_, by norm_num, by norm_num⟩
  rw [convert_mm_coordinates]
  norm_num

/-- C2 (amended): `decode_mm_coordinate` (parse_gps_tracks.py) selects its
divisor from the magnitude of each raw value — 100000 when
`|raw| > 1,000,000`, else 10000 — while `convert_mm_coordinates`
(match_wifi_to_GPS_location.py) always divides by 100000 regardless of
magnitude. -/
theorem claim2_divisor_selection :
    (∀ v : ℚ, 1000000 < |v| → decode_mm_coordinate v = v / 100000) ∧
    (∀ v : ℚ, |v| ≤ 1000000 → decode_mm_coordinate v = v / 10000) ∧
    (∀ mm_lon mm_lat : ℚ,
      convert_mm_coordinates mm_lon mm_lat = (mm_lat / 100000, mm_lon / 100000)) := by
  refine ⟨fun v hv => ?_, fun v hv => ?_, fun a b => rfl⟩
  · rw [decode_mm_coordinate, if_pos hv]
  · rw [decode_mm_coordinate, if_neg (not_lt.mpr hv)]

/-- C2 witness: evaluation of both divisor branches at concrete raw values. -/
theorem claim2_divisor_selection_witness :
    decode_mm_coordinate 2000000 = 2000000 / 100000 ∧
    decode_mm_coordinate 500000 = 500000 / 10000 :=
  ⟨claim2_divisor_selection.1 2000000 (by norm_num),
   claim2_divisor_selection.2.1 500000 (by norm_num)⟩

/-- C7: for every retained trip the average speed computed by
`create_kml_file` equals `(distance_m/1000) / (duration_s/3600)` whenever the
duration is positive, and is 0 when the duration is 0; the computation is a
total function (the guard prevents any division by a zero duration). -/
theorem claim7_avg_speed (distance_m duration_s : ℚ) :
    (0 < duration_s → create_kml_avg_speed distance_m duration_s =
      (distance_m / 1000) / (duration_s / 3600)) ∧
    (duration_s = 0 → create_kml_avg_speed distance_m duration_s = 0) := by
  constructor
  · intro hpos
    show (if 0 < duration_s / 60 then
        (distance_m / 1000) / (duration_s / 60 / 60) else 0) =
      (distance_m / 1000) / (duration_s / 3600)
    rw [if_pos (by positivity)]
    congr 1
    ring
  · intro hz
    subst hz
    show (if 0 < (0 : ℚ) / 60 then (distance_m / 1000) / (0 / 60 / 60) else 0) = 0
    norm_num

/-- C7 witness: a 1 km trip over one hour averages 1 km/h, and a
zero-duration trip has speed 0. -/
theorem claim7_avg_speed_witness :
    create_kml_avg_speed 1000 3600 = (1000 / 1000) / (3600 / 3600) ∧
    create_kml_avg_speed 1000 0 = 0 :=
  ⟨(claim7_avg_speed 1000 3600).1 (by norm_num),
   (claim7_avg_speed 1000 0).2 rfl⟩

/-- Example points for the trip-segmentation and filter claims, at the
timestamps (in seconds) used by the spec's examples. -/
def exP0 : GpsPoint := ⟨0, 0, 0, 0, 0, 0⟩

def exP30 : GpsPoint := ⟨30, 0, 0, 0, 0, 0⟩

def exP200 : GpsPoint := ⟨200, 0, 0, 0, 0, 0⟩

def exP230 : GpsPoint := ⟨230, 0, 0, 0, 0, 0⟩

/-- `min_points_per_trip = 3` from `main` of parse_gps_tracks.py (line 281). -/
def min_points_per_trip : ℕ := 3

/-- The post-filter of `main` of parse_gps_tracks.py (line 352):
`valid_trips = [trip for trip in trips if len(trip) >= min_points_per_trip]`. -/
def filter_valid_trips (trips : List (List GpsPoint)) (min_points : ℕ) :
    List (List GpsPoint) :=
  trips.filter (fun trip => decide (min_points ≤ trip.length))

/-- C9: the minimum-point post-filter keeps exactly the trips with at least
`min_points` points, unchanged and in order (short trips are discarded
entirely, never merged into neighbours); with the default minimum of 3, a
2-point trip is discarded and a 3-point trip is retained. -/
theorem claim9_min_points_filter :
    (∀ (trips : List (List GpsPoint)) (m : ℕ),
      List.Sublist (filter_valid_trips trips m) trips ∧
      ∀ t, t ∈ filter_valid_trips trips m ↔ t ∈ trips ∧ m ≤ t.length) ∧
    min_points_per_trip = 3 ∧
    filter_valid_trips [[exP0, exP30]] min_points_per_trip = [] ∧
    filter_valid_trips [[exP0, exP30, exP200]] min_points_per_trip =
      [[exP0, exP30, exP200]] := by
  refine ⟨fun trips m => ⟨List.filter_sublist trips, fun t => ?_⟩, rfl, ?_, ?_⟩
  · rw [filter_valid_trips, List.mem_filter]
    simp
  · rw [filter_valid_trips]
    simp [min_points_per_trip]
  · rw [filter_valid_trips]
    simp [min_points_per_trip]

/-- C9 witness: the filter characterisation applied to a concrete trip list
with the default minimum. -/
theorem claim9_min_points_filter_witness :
    [exP0, exP30, exP200] ∈
      filter_valid_trips [[exP0, exP30], [exP0, exP30, exP200]] 3 :=
  ((claim9_min_points_filter.1 [[exP0, exP30], [exP0, exP30, exP200]] 3).2
    [exP0, exP30, exP200]).mpr ⟨by simp, by norm_num⟩

/-- C6: the GPS line decoder rejects (returns `none`, it cannot raise) if and
only if the raw pair is exactly `(0,0)`, or the decoded point lies outside
`[-90,90]×[-180,180]`, or the decoded point is within `0.001` of the origin
in both coordinates; every accepted point carries the decoded coordinates,
lies inside the valid range and is not near null island. -/
theorem claim6_gps_rejection (ts mm_lon_raw mm_lat_raw alt hd : ℚ) (sats : ℕ) :
    (parse_gps_line ts mm_lon_raw mm_lat_raw alt hd sats = none ↔
      ((mm_lon_raw = 0 ∧ mm_lat_raw = 0) ∨
       ¬(-90 ≤ decode_mm_coordinate mm_lat_raw ∧
         decode_mm_coordinate mm_lat_raw ≤ 90 ∧
         -180 ≤ decode_mm_coordinate mm_lon_raw ∧
         decode_mm_coordinate mm_lon_raw ≤ 180) ∨
       (|decode_mm_coordinate mm_lat_raw| < 1/1000 ∧
        |decode_mm_coordinate mm_lon_raw| < 1/1000))) ∧
    (∀ g, parse_gps_line ts mm_lon_raw mm_lat_raw alt hd sats = some g →
      g.latitude = decode_mm_coordinate mm_lat_raw ∧
      g.longitude = decode_mm_coordinate mm_lon_raw ∧
      -90 ≤ g.latitude ∧ g.latitude ≤ 90 ∧
      -180 ≤ g.longitude ∧ g.longitude ≤ 180 ∧
      ¬(|g.latitude| < 1/1000 ∧ |g.longitude| < 1/1000)) := by
  simp only [parse_gps_line]
  by_cases h1 : mm_lon_raw = 0 ∧ mm_lat_raw = 0
  · rw [if_pos h1]
    exact ⟨by simp [h1], fun g hg => by cases hg⟩
  · rw [if_neg h1]
    by_cases h2 : -90 ≤ decode_mm_coordinate mm_lat_raw ∧
        decode_mm_coordinate mm_lat_raw ≤ 90 ∧
        -180 ≤ decode_mm_coordinate mm_lon_raw ∧
        decode_mm_coordinate mm_lon_raw ≤ 180
    · rw [if_neg (not_not_intro h2)]
      by_cases h3 : |decode_mm_coordinate mm_lon_raw| < 1/1000 ∧
          |decode_mm_coordinate mm_lat_raw| < 1/1000
      · rw [if_pos h3]
        constructor
        · simp only [true_iff]
          exact Or.inr (Or.inr ⟨h3.2, h3.1⟩)
        · intro g hg
          cases hg
      · rw [if_neg h3]
        constructor
        · constructor
          · intro hg
            cases hg
          · intro hr
            rcases hr with hr | hr | hr
            · exact absurd hr h1
            · exact absurd h2 hr
            · exact absurd ⟨hr.2, hr.1⟩ h3
        · intro g hg
          injection hg with hg
          subst hg
          exact ⟨rfl, rfl, h2.1, h2.2.1, h2.2.2.1, h2.2.2.2,
            fun hz => h3 ⟨hz.2, hz.1⟩⟩
    · rw [if_pos h2]
      constructor
      · simp only [true_iff]
        exact Or.inr (Or.inl h2)
      · intro g hg
        cases hg

/-- The decoded point produced from the raw pair `(700000, 450000)`. -/
def exC6 : ParsedGps := ⟨0, 45, 70, 0, 0, 0, 0⟩

/-- C6 witness: a concrete raw pair is accepted with the decoded in-range
coordinates, and the raw pair `(0,0)` is rejected. -/
theorem claim6_gps_rejection_witness :
    (exC6.latitude = decode_mm_coordinate 450000 ∧
     exC6.longitude = decode_mm_coordinate 700000 ∧
     -90 ≤ exC6.latitude ∧ exC6.latitude ≤ 90 ∧
     -180 ≤ exC6.longitude ∧ exC6.longitude ≤ 180 ∧
     ¬(|exC6.latitude| < 1/1000 ∧ |exC6.longitude| < 1/1000)) ∧
    parse_gps_line 0 0 0 0 0 0 = none :=
  ⟨(claim6_gps_rejection 0 700000 450000 0 0 0).2 exC6
    (by norm_num [parse_gps_line, decode_mm_coordinate, exC6]),
   (claim6_gps_rejection 0 0 0 0 0 0).1.mpr (Or.inl ⟨rfl, rfl⟩)⟩

/-- The GPS line of the C1 counterexample, at time delta 0 to the anchor. -/
def exC1Line : GpsLine := ⟨0, 0, 0, 0, 0⟩

/-- A 51-line log whose only GPS line sits at line index
`anchor_index + 50`. -/
def exC1Log : List (Option GpsLine) := List.replicate 50 none ++ [some exC1Line]

/-- C1 counterexample: with anchor index 0 and `window_seconds = 2`, the
candidate at line index `0 + 50` — inside the claim's inclusive interval
`[anchor − 50, anchor + 50]` (clamped: the log has 51 lines) and at time
delta `0 ≤ 2` — is not found: the scan's upper bound is exclusive, so the
correlator returns `none` although a candidate satisfies both claimed
bounds. -/
theorem claim1_counterexample :
    find_gps_in_window exC1Log 0 0 2 = none ∧
    lineAt exC1Log 50 = some exC1Line ∧
    |exC1Line.time - 0| ≤ 2 ∧ 50 < exC1Log.length := by
  refine ⟨?_, ?_, by norm_num [exC1Line], by norm_num [exC1Log]⟩
  · norm_num [find_gps_in_window, windowStep, lineAt, exC1Log, List.range',
      List.replicate]
  · norm_num [lineAt, exC1Log, List.replicate]

/-- C1 (amended): the correlator considers exactly the candidates whose line
index lies in the half-open interval
`[anchor_index − 50, anchor_index + 50)` (window fixed at 50 lines, lower
bound clamped at 0, upper bound exclusive and clamped to the file) and whose
absolute time delta is `≤ window_seconds`; it returns `none` exactly when no
candidate satisfies both bounds, and any returned candidate satisfies both —
in particular a candidate at delta `2.1 s` with `window_seconds = 2` is never
returned. -/
theorem claim1_window_semantics (log : List (Option GpsLine)) (target : ℚ)
    (start : ℕ) (w : ℚ) :
    (find_gps_in_window log target start w = none ↔
      ∀ i, start - 50 ≤ i → i < min log.length (start + 50) →
        ∀ g, lineAt log i = some g → w < |g.time - target|) ∧
    (∀ r, find_gps_in_window log target start w = some r →
      start - 50 ≤ r.idx ∧ r.idx < min log.length (start + 50) ∧
      lineAt log r.idx = some r.line ∧
      r.time_diff = |r.line.time - target| ∧ r.time_diff ≤ w) := by
  obtain ⟨h1, h2⟩ := find_gps_in_window_spec log target start w
  refine ⟨h1, fun r hr => ?_⟩
  obtain ⟨a, b, c, d, e, _⟩ := h2 r hr
  exact ⟨a, b, c, d, e⟩

/-- C1 witness: on a log with no GPS line in the scanned window the
correlator returns `none`. -/
theorem claim1_window_semantics_witness :
    find_gps_in_window [] 0 0 2 = none :=
  (claim1_window_semantics [] 0 0 2).1.mpr (by
    intro i h1 h2
    simp at h2)

/-- Candidate at time delta `+0.5 s` from the anchor at time 100. -/
def exC4a : GpsLine := ⟨201/2, 0, 0, 0, 0⟩

/-- Candidate at time delta `−1.5 s` from the anchor at time 100. -/
def exC4b : GpsLine := ⟨197/2, 0, 0, 0, 0⟩

/-- Candidate at time delta `+1.9 s` from the anchor at time 100. -/
def exC4c : GpsLine := ⟨1019/10, 0, 0, 0, 0⟩

/-- Log holding the three candidates of the spec's closest-match example. -/
def exC4Log : List (Option GpsLine) := [some exC4a, some exC4b, some exC4c]

/-- C4: whenever a candidate qualifies under both the line-index and
time-delta bounds, the correlator returns a qualifying candidate of minimal
absolute time delta, and among equal deltas the one with the earliest line
index; in particular, of the candidates at deltas `{+0.5, −1.5, +1.9}`
seconds with window 2 s it returns the `+0.5 s` one. -/
theorem claim4_closest_match :
    (∀ (log : List (Option GpsLine)) (target : ℚ) (start : ℕ) (w : ℚ),
      ((∃ i g, start - 50 ≤ i ∧ i < min log.length (start + 50) ∧
          lineAt log i = some g ∧ |g.time - target| ≤ w) →
        ∃ r, find_gps_in_window log target start w = some r) ∧
      (∀ r, find_gps_in_window log target start w = some r →
        r.time_diff = |r.line.time - target| ∧
        ∀ i, start - 50 ≤ i → i < min log.length (start + 50) →
          ∀ g, lineAt log i = some g → |g.time - target| ≤ w →
            r.time_diff ≤ |g.time - target| ∧
            (|g.time - target| = r.time_diff → r.idx ≤ i))) ∧
    find_gps_in_window exC4Log 100 0 2 = some ⟨0, exC4a, 1/2⟩ := by
  constructor
  · intro log target start w
    constructor
    · rintro ⟨i, g, h1, h2, hg, hgw⟩
      cases hfind : find_gps_in_window log target start w with
      | some r => exact ⟨r, rfl⟩
      | none =>
        have := (find_gps_in_window_spec log target start w).1.mp hfind i h1 h2 g hg
        exact absurd hgw (not_le.mpr this)
    · intro r hr
      obtain ⟨_, _, _, d, _, f⟩ := (find_gps_in_window_spec log target start w).2 r hr
      exact ⟨d, f⟩
  · norm_num [find_gps_in_window, windowStep, lineAt, exC4Log, List.range',
      exC4a, exC4b, exC4c, abs_of_pos, abs_of_nonneg]

/-- C4 witness: the existence direction applied to the concrete three-candidate
log. -/
theorem claim4_closest_match_witness :
    ∃ r, find_gps_in_window exC4Log 100 0 2 = some r :=
  (claim4_closest_match.1 exC4Log 100 0 2).1
    ⟨0, exC4a, by norm_num, by norm_num [exC4Log],
     by norm_num [lineAt, exC4Log], by norm_num [exC4a, abs_of_nonneg]⟩

/-- The four-point example of the spec, at timestamps 0, 30, 200 and 230
seconds. -/
def exTrips : List GpsPoint := [exP0, exP30, exP200, exP230]

/-- C3: trip segmentation stably sorts the points by timestamp ascending,
then splits the sorted sequence exactly at gaps strictly above the threshold
(in minutes) — the trips concatenate back to the sorted sequence, gaps
within a trip are `≤` the threshold, gaps between consecutive trips are
`>` the threshold, and no other criterion splits; the four points at
0 s, 30 s, 200 s, 230 s with the default 2-minute threshold yield exactly
the trips `[0 s, 30 s]` and `[200 s, 230 s]`. -/
theorem claim3_trip_segmentation :
    (∀ (pts : List GpsPoint) (gap : ℚ),
      List.Perm (sortByTimestamp pts) pts ∧
      (sortByTimestamp pts).Pairwise (fun a b => a.timestamp ≤ b.timestamp) ∧
      (∀ a b : GpsPoint, List.Sublist [a, b] pts → a.timestamp ≤ b.timestamp →
        List.Sublist [a, b] (sortByTimestamp pts)) ∧
      (group_into_trips pts gap).flatten = sortByTimestamp pts ∧
      (∀ t ∈ group_into_trips pts gap, t ≠ [] ∧ WithinGap gap t) ∧
      (group_into_trips pts gap).Chain' (TripBoundary gap)) ∧
    group_into_trips exTrips 2 = [[exP0, exP30], [exP200, exP230]] := by
  constructor
  · intro pts gap
    obtain ⟨hj, hm, hc⟩ := group_into_trips_spec pts gap
    exact ⟨sortByTimestamp_perm pts, sortByTimestamp_sorted pts,
      fun a b h hab => sortByTimestamp_stable pts h hab, hj, hm, hc⟩
  · have hs : sortByTimestamp exTrips = exTrips :=
      List.mergeSort_of_sorted (by
        norm_num [exTrips, exP0, exP30, exP200, exP230, List.pairwise_cons])
    simp only [group_into_trips, hs]
    norm_num [tripsStep, exTrips, exP0, exP30, exP200, exP230]

/-- C3 witness: the stability clause applied to two concretely ordered
points of the example input. -/
theorem claim3_trip_segmentation_witness :
    List.Sublist [exP0, exP30] (sortByTimestamp exTrips) :=
  (claim3_trip_segmentation.1 exTrips 2).2.2.1 exP0 exP30
    (List.sublist_append_left [exP0, exP30] [exP200, exP230])
    (by norm_num [exP0, exP30])

/-- One-dimensional distance (latitude difference) used to instantiate the
clustering claims on concrete data. -/
def dLat : ℚ × ℚ → ℚ × ℚ → ℚ := fun a b => |a.1 - b.1|

/-- Concrete clustering input: a seed and two entries each exactly at the
radius from the seed but at twice the radius from each other. -/
def exE0 : LocEntry := ⟨0, 0, 0⟩

def exE1 : LocEntry := ⟨1, 10, 0⟩

def exE2 : LocEntry := ⟨2, -10, 0⟩

def exClusterData : List LocEntry := [exE0, exE1, exE2]

def exCluster : Cluster := ⟨(0, 0), [(0, 0), (10, 0), (-10, 0)], [0, 1, 2], 3⟩

theorem exCluster_eval :
    cluster_locations dLat 10 exClusterData = [exCluster] := by
  norm_num [cluster_locations, clusterGo, calculate_centroid, coordsOf, dLat,
    exClusterData, exE0, exE1, exE2, exCluster, abs_of_nonneg, abs_of_nonpos,
    List.filter_cons, decide_eq_true_eq]

/-- C5: every member of every cluster is within `radius` of that cluster's
seed (its first member) under the clustering distance — membership is
decided against the fixed seed — while two members of the same cluster may
be more than `radius` apart from each other, as the concrete instance
shows. -/
theorem claim5_cluster_radius :
    (∀ (d : ℚ × ℚ → ℚ × ℚ → ℚ) (radius : ℚ) (data : List LocEntry),
      ∀ c ∈ cluster_locations d radius data,
        ∃ seed, c.points.head? = some seed ∧
          ∀ q ∈ c.points, q = seed ∨ d seed q ≤ radius) ∧
    (∃ c ∈ cluster_locations dLat 10 exClusterData,
      ∃ p ∈ c.points, ∃ q ∈ c.points, 10 < dLat p q) := by
  constructor
  · intro d radius data c hc
    rw [cluster_locations, List.mem_mergeSort] at hc
    obtain ⟨hne, hcount, hts, hseed⟩ :=
      clusterGo_members d radius data.length data (le_refl _) c hc
    obtain ⟨s, t, hst⟩ := List.exists_cons_of_ne_nil hne
    refine ⟨s, by rw [hst]; rfl, ?_⟩
    intro q hq
    rw [hst] at hq
    rcases List.mem_cons.mp hq with hq | hq
    · exact Or.inl hq
    · exact Or.inr (hseed s (by rw [hst]; rfl) q (by rw [hst]; exact hq))
  · refine ⟨exCluster, by rw [exCluster_eval]; exact List.mem_singleton_self _,
      (10, 0), by simp [exCluster], (-10, 0), by simp [exCluster], ?_⟩
    norm_num [dLat, abs_of_nonneg]

/-- C5 witness: the seed-radius property applied to the concrete cluster. -/
theorem claim5_cluster_radius_witness :
    ∃ seed, exCluster.points.head? = some seed ∧
      ∀ q ∈ exCluster.points, q = seed ∨ dLat seed q ≤ 10 :=
  claim5_cluster_radius.1 dLat 10 exClusterData exCluster
    (by rw [exCluster_eval]; exact List.mem_singleton_self _)

/-- C8: the returned cluster list is sorted by member count in descending
order, it is a permutation of the clusters in formation order, and any two
formed clusters in formation order whose counts are non-ascending — in
particular equal — keep their relative order in the output (the sort is
stable, first-formed first). -/
theorem claim8_cluster_ordering (d : ℚ × ℚ → ℚ × ℚ → ℚ) (radius : ℚ)
    (data : List LocEntry) :
    (cluster_locations d radius data).Pairwise (fun a b => b.count ≤ a.count) ∧
    List.Perm (cluster_locations d radius data)
      (clusterGo d radius data.length data) ∧
    (∀ a b : Cluster,
      List.Sublist [a, b] (clusterGo d radius data.length data) →
      b.count ≤ a.count →
      List.Sublist [a, b] (cluster_locations d radius data)) :=
  ⟨cluster_locations_sorted d radius data, cluster_locations_perm d radius data,
   fun _ _ h hab => cluster_locations_stable d radius data h hab⟩

/-- Two entries far apart, forming two singleton clusters with tied counts. -/
def exFar : LocEntry := ⟨5, 100, 0⟩

def exTieData : List LocEntry := [exE0, exFar]

def exTieC1 : Cluster := ⟨(0, 0), [(0, 0)], [0], 1⟩

def exTieC2 : Cluster := ⟨(100, 0), [(100, 0)], [5], 1⟩

theorem exTie_eval :
    clusterGo dLat 10 exTieData.length exTieData = [exTieC1, exTieC2] := by
  norm_num [clusterGo, calculate_centroid, coordsOf, dLat, exTieData, exE0,
    exFar, exTieC1, exTieC2, abs_of_nonneg, abs_of_nonpos, List.filter_cons,
    decide_eq_true_eq]

/-- C8 witness: two tied singleton clusters keep their formation order in the
output. -/
theorem claim8_cluster_ordering_witness :
    List.Sublist [exTieC1, exTieC2] (cluster_locations dLat 10 exTieData) :=
  (claim8_cluster_ordering dLat 10 exTieData).2.2 exTieC1 exTieC2
    (by rw [exTie_eval]) (by norm_num [exTieC1, exTieC2])

/-- C10: the clusters partition the input — their member lists concatenate
to a permutation of the input coordinates, every cluster is non-empty,
contains its seed and has `count` equal to its member count, the counts sum
to the input size (no point is dropped), and the empty input yields the
empty cluster list. -/
theorem claim10_cluster_partition (d : ℚ × ℚ → ℚ × ℚ → ℚ) (radius : ℚ)
    (data : List LocEntry) :
    List.Perm ((cluster_locations d radius data).map (fun c => c.points)).flatten
      (data.map coordsOf) ∧
    (∀ c ∈ cluster_locations d radius data,
      c.points ≠ [] ∧ c.count = c.points.length ∧
      ∃ seed, c.points.head? = some seed ∧ seed ∈ c.points) ∧
    ((cluster_locations d radius data).map (fun c => c.count)).sum = data.length ∧
    (data = [] → cluster_locations d radius data = []) := by
  have hperm0 := cluster_locations_perm d radius data
  have hpart := clusterGo_partition d radius data.length data (le_refl _)
  have hflat := ((hperm0.map (fun c => c.points)).flatten).trans hpart
  have hmem : ∀ c ∈ cluster_locations d radius data,
      c.points ≠ [] ∧ c.count = c.points.length ∧
      ∃ seed, c.points.head? = some seed ∧ seed ∈ c.points := by
    intro c hc
    rw [cluster_locations, List.mem_mergeSort] at hc
    obtain ⟨hne, hcount, hts, _⟩ :=
      clusterGo_members d radius data.length data (le_refl _) c hc
    obtain ⟨s, t, hst⟩ := List.exists_cons_of_ne_nil hne
    exact ⟨hne, hcount, s, by rw [hst]; rfl, by rw [hst]; exact List.mem_cons_self s t⟩
  refine ⟨hflat, hmem, ?_, ?_⟩
  · have h1 : ((cluster_locations d radius data).map (fun c => c.count)) =
        ((cluster_locations d radius data).map (fun c => c.points)).map
          (fun pts => pts.length) := by
      rw [List.map_map]
      exact List.map_congr_left (fun c hc => (hmem c hc).2.1)
    rw [h1, ← List.length_flatten, hflat.length_eq, List.length_map]
  · intro h
    subst h
    simp [cluster_locations, clusterGo_nil]

/-- C10 witness: the counts of the concrete clustering sum to the input
size, and the empty input yields no clusters. -/
theorem claim10_cluster_partition_witness :
    ((cluster_locations dLat 10 exClusterData).map (fun c => c.count)).sum =
      exClusterData.length ∧
    cluster_locations dLat 10 [] = [] :=
  ⟨(claim10_cluster_partition dLat 10 exClusterData).2.2.1,
   (claim10_cluster_partition dLat 10 []).2.2.2 rfl⟩

end FordSync
